import Mathlib

/-!
# gitcmd: the `GitWrap` command builder and runner

A shallow embedding of `git.go` (package `gitwrap`).

* Go strings are Lean `String`s.  Every rune the code searches for is ASCII, so looking
  for it among the characters agrees with Go's byte-wise search.
* A `*os.File` is an optional handle number; `none` is the nil pointer.
* A method with a pointer receiver is a function on the receiver's state.  A method
  that mutates the receiver returns the new state; `Heap` adds the pointer that a method
  which touches no slice returns, and `Mem` the backing arrays of `Args` for the methods
  that append.
* The operating system (process creation, search path, `/proc/version`, file system)
  is a record of oracles, `OS`; the calls a method makes on it are collected in a
  trace of `Effect`s.
-/

namespace gitwrap

/-! ## Strings -/

/-- The double-quote rune, written `'"'` in the source. -/
def dquote : Char := Char.ofNat 34

/-- The single-quote rune, written `'\''` in the source. -/
def squote : Char := Char.ofNat 39

/-- The space rune. -/
def space : Char := Char.ofNat 32

/-- Go `strings.ContainsRune(s, r)`. -/
def ContainsRune (s : String) (r : Char) : Bool :=
  s.data.contains r

/-- Go `strings.Join(elems, sep)`: the switch on the length, then the builder loop that
writes the first element and after it `sep` and the next element, in turn. -/
def Join (elems : List String) (sep : String) : String :=
  match elems with
  | [] => ""
  | [a] => a
  | a :: rest => rest.foldl (fun b s => b ++ sep ++ s) a

/-! ## The data model -/

/-- A `*os.File`: `none` is nil, `some fd` an open file. -/
abbrev File := Option Nat

/-- Go `os.Stdin`. -/
def osStdin : File := some 0

/-- Go `os.Stdout`. -/
def osStdout : File := some 1

/-- Go `os.Stderr`. -/
def osStderr : File := some 2

/-- The struct `GitWrap`. -/
structure GitWrap where
  Bin : String
  Args : List String
  WorkDir : String
  Stdin : File
  Stdout : File
  Stderr : File
  gitDir : String
  deriving DecidableEq, Repr

/-- The package variables of `git.go`.  `GitDir` is the variable of that name (the method
`GitWrap.GitDir` is `GitWrap.GitDir` below).  `debug` is declared in another file of the
package and is read by `verboseLog`. -/
structure Pkg where
  DefaultBin : String
  GitDir : String
  debug : Bool
  detectedWSL : Bool
  detectedWSLContents : String
  deriving DecidableEq, Repr

/-- The package state when the process starts: the initialisers of the `var` blocks. -/
def Pkg.init : Pkg :=
  { DefaultBin := "git", GitDir := ".git", debug := false,
    detectedWSL := false, detectedWSLContents := "" }

/-- Go `New(args...)`: zero values for `WorkDir` and `gitDir`. -/
def New (pkg : Pkg) (args : List String) : GitWrap :=
  { Bin := pkg.DefaultBin, Args := args, WorkDir := "",
    Stdin := osStdin, Stdout := osStdout, Stderr := osStderr, gitDir := "" }

/-! ## Configuration methods -/

/-- Go `(gw *GitWrap) WithWorkDir(dir)`: the receiver after the call. -/
def GitWrap.WithWorkDir (gw : GitWrap) (dir : String) : GitWrap :=
  { gw with WorkDir := dir }

/-- Go `(gw *GitWrap) WithStdin(in)`: the receiver after the call. -/
def GitWrap.WithStdin (gw : GitWrap) (inp : File) : GitWrap :=
  { gw with Stdin := inp }

/-- Go `(gw *GitWrap) WithOutput(out, errOut)`: the receiver after the call. -/
def GitWrap.WithOutput (gw : GitWrap) (out errOut : File) : GitWrap :=
  let gw1 := { gw with Stdout := out }
  if errOut ≠ none then { gw1 with Stderr := errOut } else gw1

/-- Go `(gw *GitWrap) SubCmd(cmd)`: `gw.Args = append(gw.Args, cmd)`. -/
def GitWrap.SubCmd (gw : GitWrap) (cmd : String) : GitWrap :=
  { gw with Args := gw.Args ++ [cmd] }

/-- Go `(gw *GitWrap) WithArg(args...)`: `gw.Args = append(gw.Args, args...)`. -/
def GitWrap.WithArg (gw : GitWrap) (args : List String) : GitWrap :=
  { gw with Args := gw.Args ++ args }

/-- Go `(gw *GitWrap) WithArgs(args)`: `gw.Args = append(gw.Args, args...)`. -/
def GitWrap.WithArgs (gw : GitWrap) (args : List String) : GitWrap :=
  { gw with Args := gw.Args ++ args }

/-! ## The heap: builder methods return their receiver -/

/-- A `*GitWrap`. -/
abbrev Ptr := Nat

/-- The `GitWrap` values the pointers of a program refer to. -/
abbrev Heap := Ptr → GitWrap

/-- Writing through a pointer. -/
def Heap.store (h : Heap) (p : Ptr) (v : GitWrap) : Heap :=
  fun q => if q = p then v else h q

/-- A method of the form `func (gw *GitWrap) M(…) *GitWrap { body; return gw }`: the
receiver is updated in place and the pointer returned is the receiver. -/
def chained (body : GitWrap → GitWrap) (h : Heap) (gw : Ptr) : Heap × Ptr :=
  (h.store gw (body (h gw)), gw)

/-- `gw.WithOutput(out, errOut)` on the heap. -/
def WithOutputAt (h : Heap) (gw : Ptr) (out errOut : File) : Heap × Ptr :=
  chained (fun g => g.WithOutput out errOut) h gw

/-! ## Slices: the memory behind `Args`

`append` may write into the spare capacity of the backing array of `gw.Args`, which
other slices can share, so the methods that append are modelled on a memory of backing
arrays. -/

/-- A Go slice header: the backing array, where in it element 0 lies, the length and the
capacity. -/
structure Slice where
  arr : Nat
  off : Nat
  len : Nat
  cap : Nat
  deriving DecidableEq, Repr

/-- A `GitWrap` as it lies in memory: `Args` is a slice header. -/
structure Obj where
  Bin : String
  Args : Slice
  WorkDir : String
  Stdin : File
  Stdout : File
  Stderr : File
  gitDir : String
  deriving DecidableEq, Repr

/-- The memory of a program: the commands its pointers refer to, the backing arrays, the
first array not yet allocated, and the spare capacity the runtime gives a grown slice
(from the old capacity and the length needed). -/
structure Mem where
  cmds : Ptr → Obj
  arrays : Nat → List String
  fresh : Nat
  spare : Nat → Nat → Nat

/-- The elements of a slice. -/
def Mem.elems (m : Mem) (s : Slice) : List String :=
  ((m.arrays s.arr).drop s.off).take s.len

/-- The command a pointer refers to, with the elements of its `Args`. -/
def Mem.command (m : Mem) (p : Ptr) : GitWrap :=
  { Bin := (m.cmds p).Bin, Args := m.elems (m.cmds p).Args, WorkDir := (m.cmds p).WorkDir,
    Stdin := (m.cmds p).Stdin, Stdout := (m.cmds p).Stdout, Stderr := (m.cmds p).Stderr,
    gitDir := (m.cmds p).gitDir }

/-- A slice of the memory: its length is within its capacity and its capacity within its
backing array. -/
def Slice.InBounds (s : Slice) (m : Mem) : Prop :=
  s.len ≤ s.cap ∧ s.off + s.cap ≤ (m.arrays s.arr).length

instance (s : Slice) (m : Mem) : Decidable (s.InBounds m) :=
  inferInstanceAs (Decidable (s.len ≤ s.cap ∧ s.off + s.cap ≤ (m.arrays s.arr).length))

/-- Go `append(s, xs...)`, `xs` being the values of the elements appended: when they fit
the capacity they are written into the backing array after the elements of `s`;
otherwise a new array is allocated that holds the elements of `s`, then `xs`, then the
spare capacity. -/
def append (m : Mem) (s : Slice) (xs : List String) : Mem × Slice :=
  if s.len + xs.length ≤ s.cap then
    let a := m.arrays s.arr
    let a2 := a.take (s.off + s.len) ++ xs ++ a.drop (s.off + s.len + xs.length)
    ({ m with arrays := fun i => if i = s.arr then a2 else m.arrays i },
      { s with len := s.len + xs.length })
  else
    let n := s.len + xs.length
    let extra := m.spare s.cap n
    ({ m with
        arrays := fun i =>
          if i = m.fresh then m.elems s ++ xs ++ List.replicate extra "" else m.arrays i,
        fresh := m.fresh + 1 },
      { arr := m.fresh, off := 0, len := n, cap := n + extra })

/-- The statement `gw.Args = append(gw.Args, xs...)` of `SubCmd`, `WithArg` and
`WithArgs`, followed by `return gw`. -/
def appendArgs (m : Mem) (gw : Ptr) (xs : List String) : Mem × Ptr :=
  let r := append m (m.cmds gw).Args xs
  ({ r.1 with cmds := fun q => if q = gw then { (m.cmds gw) with Args := r.2 } else m.cmds q },
    gw)

/-- Go `(gw *GitWrap) SubCmd(cmd)` in memory: `gw.Args = append(gw.Args, cmd)`. -/
def SubCmdAt (m : Mem) (gw : Ptr) (cmd : String) : Mem × Ptr :=
  appendArgs m gw [cmd]

/-- Go `(gw *GitWrap) WithArg(args...)` in memory: `gw.Args = append(gw.Args, args...)`. -/
def WithArgAt (m : Mem) (gw : Ptr) (args : List String) : Mem × Ptr :=
  appendArgs m gw args

/-- Go `(gw *GitWrap) WithArgs(args)` in memory: `gw.Args = append(gw.Args, args...)`. -/
def WithArgsAt (m : Mem) (gw : Ptr) (args : List String) : Mem × Ptr :=
  appendArgs m gw args

/-! ## Inspection methods -/

/-- Go `(gw *GitWrap) GitDir()`: the string returned and the receiver after the call.
`pkg.GitDir` is the package variable. -/
def GitWrap.GitDir (pkg : Pkg) (gw : GitWrap) : String × GitWrap :=
  if gw.gitDir ≠ "" then
    (gw.gitDir, gw)
  else
    let gw1 :=
      if gw.WorkDir ≠ "" then { gw with gitDir := gw.WorkDir ++ "/.git" }
      else { gw with gitDir := pkg.GitDir }
    (gw1.gitDir, gw1)

/-! ## The file system -/

/-- What a path names. -/
inductive Entry where
  | absent
  | file
  | dir
  deriving DecidableEq, Repr

/-- A file system as the process sees it: its current directory, and what each absolute
path names. -/
structure FileSys where
  cwd : String
  entry : String → Entry

/-- Path resolution by the operating system: a path that starts with `/` is absolute,
any other path is taken from the current directory. -/
def FileSys.resolve (fs : FileSys) (path : String) : String :=
  match path.data with
  | c :: _ => if c = Char.ofNat 47 then path else fs.cwd ++ "/" ++ path
  | [] => fs.cwd

/-- The library call `fsutil.IsDir(path)` (gookit/goutil): false for the empty path,
otherwise whether `os.Stat` finds a directory. -/
def IsDir (fs : FileSys) (path : String) : Bool :=
  if path = "" then false
  else decide (fs.entry (fs.resolve path) = Entry.dir)

/-- Go `(gw *GitWrap) IsGitRepo()`. -/
def GitWrap.IsGitRepo (pkg : Pkg) (fs : FileSys) (gw : GitWrap) : Bool :=
  IsDir fs (gw.WorkDir ++ "/" ++ pkg.GitDir)

/-- Go `(gw *GitWrap) CurrentBranch()`: the string returned and the receiver after the
call.  The body is `return ""`; neither the package variables nor the file system, which
every method can reach, are consulted. -/
def GitWrap.CurrentBranch (_pkg : Pkg) (_fs : FileSys) (gw : GitWrap) : String × GitWrap :=
  ("", gw)

/-- The directory the specification names for `IsGitRepo`: the working directory of the
command, or the current directory of the process when `WorkDir` is empty. -/
def workingDirectory (fs : FileSys) (gw : GitWrap) : String :=
  if gw.WorkDir = "" then fs.cwd else fs.resolve gw.WorkDir

/-- The specification of `IsGitRepo`: the entry named by the metadata-directory name
directly under the working directory is a directory. -/
def isRepoAsSpecified (pkg : Pkg) (fs : FileSys) (gw : GitWrap) : Bool :=
  decide (fs.entry (workingDirectory fs gw ++ "/" ++ pkg.GitDir) = Entry.dir)

/-! ## `String` -/

/-- The body of the `for i, a := range gw.Args` loop of `String`: the value stored in
`args[i]`. -/
def quoteArg (a : String) : String :=
  if ContainsRune a dquote then
    "\x27" ++ a ++ "\x27"
  else if a = "" || ContainsRune a squote || ContainsRune a space then
    "\x22" ++ a ++ "\x22"
  else
    a

/-- The loop of `String` from index `i` on: `rest` are the elements of `gw.Args` still to
visit, `args` the slice made by `make([]string, len(gw.Args))`. -/
def stringLoop (rest : List String) (i : Nat) (args : List String) : List String :=
  match rest with
  | [] => args
  | a :: rest => stringLoop rest (i + 1) (args.set i (quoteArg a))

/-- Go `(gw *GitWrap) String()`. -/
def GitWrap.String (gw : GitWrap) : String :=
  let args := stringLoop gw.Args 0 (List.replicate gw.Args.length "")
  gw.Bin ++ " " ++ Join args " "

/-! ## Processes and the operating system -/

/-- A Go `error` as far as this package tells errors apart: the `*exec.Error` that `Exec`
builds, the errors the operating system and `os/exec` produce, and the errors made by
`errors.New` from a message. -/
inductive GoError where
  | execError (Name : String) (Err : String)
  | sys (code : Nat)
  | text (msg : String)
  deriving DecidableEq, Repr

/-- The fields of an `exec.Cmd` that this package can reach. -/
structure Cmd where
  Path : String
  Args : List String
  Dir : String
  Stdin : File
  Stdout : File
  Stderr : File
  Err : Option GoError
  deriving DecidableEq, Repr

/-- The operating system as the package sees it.
`procVersion` is `none` when `os.Open("/proc/version")` fails, otherwise the contents of
the file; `LookPath` is `exec.LookPath` (`none` is a non-nil error, and `LookPathErr` is
that error); `Base` is `filepath.Base` of the platform; `Run` is what starting the child
described by an `exec.Cmd` and waiting for it gives (`none` is the nil error); `Exec` is
`syscall.Exec`, where `none` means the process image was replaced, so that the call does
not return. -/
structure OS where
  GOOS : String
  procVersion : Option String
  LookPath : String → Option String
  LookPathErr : String → GoError
  Base : String → String
  Environ : List String
  Run : Cmd → Option GoError
  Exec : String → List String → List String → Option GoError

/-- The library call `filepath.Base(path)` on a platform whose separator is `/`: `.` for
the empty path; otherwise trailing separators are dropped and the last element is
returned, or `/` when nothing but separators was there. -/
def unixBase (path : String) : String :=
  if path = "" then "."
  else
    let stripped := (path.data.reverse.dropWhile (fun c => c = Char.ofNat 47)).reverse
    let last := (stripped.reverse.takeWhile (fun c => c ≠ Char.ofNat 47)).reverse
    if last = [] then "/" else String.mk last

/-- The library call `exec.Command(name, arg...)`: it sets the program and the argument
vector (`name` followed by `arg`); when `filepath.Base(name) == name`, that is when
`name` has no path separator, `name` is resolved by `LookPath` into `Path`, and a failed
lookup is kept in `Err`.  `Dir` and the three streams are zero. -/
def Command (os : OS) (name : String) (arg : List String) : Cmd :=
  let cmd : Cmd :=
    { Path := name, Args := name :: arg, Dir := "",
      Stdin := none, Stdout := none, Stderr := none, Err := none }
  if os.Base name = name then
    match os.LookPath name with
    | some lp => { cmd with Path := lp }
    | none => { cmd with Err := some (os.LookPathErr name) }
  else cmd

/-- What a method asks of the outside world, in order.  `start c` is the child process
that `os/exec` starts from the `exec.Cmd` `c`. -/
inductive Effect where
  | verbose (line : String)
  | readProcVersion
  | lookPath (name : String)
  | start (c : Cmd)
  | exec (binary : String) (argv : List String) (env : List String)
  deriving DecidableEq, Repr

/-- How a call of `Run`, `Spawn` or `Exec` ends: it returns an error value (`none` is
nil), or the process image is replaced and it never returns. -/
inductive Ret where
  | returned (err : Option GoError)
  | replaced
  deriving DecidableEq, Repr

/-- Go `verboseLog(cmd)`: one line with `cmd.String()` when `debug` is set. -/
def verboseLog (pkg : Pkg) (cmd : GitWrap) : List Effect :=
  if pkg.debug then [Effect.verbose cmd.String] else []

/-- The library call `(*exec.Cmd).Run()`, that is `Start` and then `Wait`: a command
without a program gets the error `exec: no command`; a command with an error, from that
check or from the lookup in `exec.Command`, returns it and no child is started; otherwise
the child is started and waited for. -/
def Cmd.Run (os : OS) (c : Cmd) : List Effect × Option GoError :=
  let c1 :=
    if c.Path = "" ∧ c.Err = none then { c with Err := some (GoError.text "exec: no command") }
    else c
  match c1.Err with
  | some e => ([], some e)
  | none => ([Effect.start c1], os.Run c1)

/-- Go `(gw *GitWrap) NewExecCmd()`. -/
def GitWrap.NewExecCmd (os : OS) (gw : GitWrap) : Cmd :=
  Command os gw.Bin gw.Args

/-- The `exec.Cmd` that `Spawn` builds before it calls `c.Run()`. -/
def GitWrap.spawnCmd (os : OS) (gw : GitWrap) : Cmd :=
  let c := Command os gw.Bin gw.Args
  let c := { c with Stdin := gw.Stdin }
  let c := { c with Stdout := gw.Stdout }
  { c with Stderr := gw.Stderr }

/-- Go `(gw *GitWrap) Spawn()`. -/
def GitWrap.Spawn (pkg : Pkg) (os : OS) (gw : GitWrap) : List Effect × Ret :=
  let c := gw.spawnCmd os
  let r := c.Run os
  (verboseLog pkg gw ++ r.1, Ret.returned r.2)

/-- Go `(gw *GitWrap) Exec()`. -/
def GitWrap.Exec (pkg : Pkg) (os : OS) (gw : GitWrap) : List Effect × Ret :=
  let log := verboseLog pkg gw
  match os.LookPath gw.Bin with
  | none =>
    (log ++ [Effect.lookPath gw.Bin],
      Ret.returned (some (GoError.execError gw.Bin "command not found")))
  | some binary =>
    let args := [binary] ++ gw.Args
    (log ++ [Effect.lookPath gw.Bin, Effect.exec binary args os.Environ],
      match os.Exec binary args os.Environ with
      | none => Ret.replaced
      | some e => Ret.returned (some e))

/-! ## Platform detection -/

/-- Whether `sub` occurs in the characters `l` at some position. -/
def containsChars (sub : List Char) : List Char → Bool
  | [] => sub.isPrefixOf []
  | c :: cs => sub.isPrefixOf (c :: cs) || containsChars sub cs

/-- Go `strings.Contains(s, substr)`. -/
def Contains (s substr : String) : Bool :=
  containsChars substr.data s.data

/-- The buffer `b := make([]byte, 1024)` after `f.Read(b)` on a file with the given
contents, converted by `string(b)`: the bytes read, then the zero bytes left over.
`/proc/version` is ASCII text, so a character stands for a byte. -/
def readBuffer (content : String) : String :=
  let got := content.data.take 1024
  String.mk (got ++ List.replicate (1024 - got.length) (Char.ofNat 0))

/-- Go `detectWSL()`: the result, the package variables after the call, and the effects. -/
def detectWSL (pkg : Pkg) (os : OS) : Bool × Pkg × List Effect :=
  let step : Pkg × List Effect :=
    if !pkg.detectedWSL then
      let pkg1 :=
        match os.procVersion with
        | some content => { pkg with detectedWSLContents := readBuffer content }
        | none => pkg
      ({ pkg1 with detectedWSL := true }, [Effect.readProcVersion])
    else (pkg, [])
  (Contains step.1.detectedWSLContents "Microsoft", step.1, step.2)

/-- Go `isWindows()`: `runtime.GOOS == "windows" || detectWSL()`, the right operand only
evaluated when the left one is false. -/
def isWindows (pkg : Pkg) (os : OS) : Bool × Pkg × List Effect :=
  if os.GOOS = "windows" then (true, pkg, []) else detectWSL pkg os

/-- Go `(gw *GitWrap) Run()`: the package variables after the call, the effects, and how
the call ends. -/
def GitWrap.Run (pkg : Pkg) (os : OS) (gw : GitWrap) : Pkg × List Effect × Ret :=
  let w := isWindows pkg os
  let r := if w.1 then gw.Spawn w.2.1 os else gw.Exec w.2.1 os
  (w.2.1, w.2.2 ++ r.1, r.2)

/-- A process that calls `Run` again and again, each time on some command and with the
operating system in some state: all effects, in order. -/
def runAll (pkg : Pkg) : List (OS × GitWrap) → List Effect
  | [] => []
  | call :: rest =>
    let r := call.2.Run pkg call.1
    r.2.1 ++ runAll r.1 rest

/-- The package variables of a running process: `detectedWSLContents` is only assigned
inside `detectWSL`, which sets `detectedWSL` in the same call. -/
def Pkg.Reachable (pkg : Pkg) : Prop :=
  pkg.detectedWSL = false → pkg.detectedWSLContents = ""

instance (pkg : Pkg) : Decidable pkg.Reachable :=
  inferInstanceAs (Decidable (pkg.detectedWSL = false → pkg.detectedWSLContents = ""))

/-- The first-read contents of `/proc/version`: what one read into a buffer of 1024 bytes
delivers. -/
def firstRead (content : String) : String :=
  String.mk (content.data.take 1024)

/-- The memoized contents of `/proc/version` in the words of the specification: the
contents kept from the first inspection when there has been one, otherwise what the
inspection made now reads (nothing when the file cannot be opened). -/
def memoizedContents (pkg : Pkg) (os : OS) : String :=
  if pkg.detectedWSL then pkg.detectedWSLContents
  else
    match os.procVersion with
    | some content => firstRead content
    | none => ""

/-- The program of the child that `Spawn` starts: `Bin`, resolved through the search path
when it is a bare name that the search path knows. -/
def resolvedBin (os : OS) (bin : String) : String :=
  if os.Base bin = bin then (os.LookPath bin).getD bin else bin

/-- The platforms on which the specification has `Run` dispatch to `Spawn`: Windows, and
those whose memoized `/proc/version` contents contain the marker. -/
def spawnPlatform (pkg : Pkg) (os : OS) : Bool :=
  decide (os.GOOS = "windows") || Contains (memoizedContents pkg os) "Microsoft"

/-- The rendering of one argument in the words of the specification: single quotes when
it contains a double quote; otherwise double quotes when it is empty or contains a single
quote or a space; otherwise the argument itself. -/
def renderedArg (a : String) : String :=
  if dquote ∈ a.data then "\x27" ++ a ++ "\x27"
  else if a = "" ∨ squote ∈ a.data ∨ space ∈ a.data then "\x22" ++ a ++ "\x22"
  else a

/-! ## Concrete inputs -/

/-- A file system with a repository in the current directory and none at the root. -/
def repoInCwd : FileSys :=
  { cwd := "/home/u/proj",
    entry := fun p =>
      if p = "/home/u/proj" then Entry.dir
      else if p = "/home/u/proj/.git" then Entry.dir
      else if p = "/home/u/proj/README" then Entry.file
      else Entry.absent }

/-- A Linux host with `git` on the search path; every child succeeds and every
replacement of the process image succeeds. -/
def linuxHost : OS :=
  { GOOS := "linux",
    procVersion := some "Linux version 5.15.0 (gcc 11.2.0)",
    LookPath := fun name => if name = "git" then some "/usr/bin/git" else none,
    LookPathErr := fun name => GoError.execError name "executable file not found in $PATH",
    Base := unixBase,
    Environ := ["PATH=/usr/bin"],
    Run := fun _ => none,
    Exec := fun _ _ _ => none }

/-- Two commands, at pointers 0 and 1, whose `Args` are the same slice `[log]` of capacity
4; every other pointer refers to a copy of the first. -/
def sharedMem : Mem :=
  { cmds := fun _ =>
      { Bin := "git", Args := { arr := 0, off := 0, len := 1, cap := 4 }, WorkDir := "",
        Stdin := osStdin, Stdout := osStdout, Stderr := osStderr, gitDir := "" },
    arrays := fun i => if i = 0 then ["log", "", "", ""] else [],
    fresh := 1,
    spare := fun _ n => n }

/-- The same host under the Windows Subsystem for Linux. -/
def wslHost : OS :=
  { linuxHost with
    procVersion := some "Linux version 4.4.0-19041-Microsoft (Microsoft@Microsoft.com)" }

/-! ## Lemmas on strings and on the loop of `String` -/

theorem quoteArg_eq_renderedArg (a : String) : quoteArg a = renderedArg a := by
  unfold quoteArg renderedArg ContainsRune
  by_cases h1 : dquote ∈ a.data
  · simp [h1]
  · by_cases h2 : a = ""
    · subst h2
      simp [h1]
    · by_cases h3 : squote ∈ a.data
      · simp [h1, h3]
      · by_cases h4 : space ∈ a.data <;> simp [h1, h2, h3, h4]

theorem stringLoop_eq (rest : List String) :
    ∀ (i : Nat) (args : List String), i + rest.length ≤ args.length →
      stringLoop rest i args
        = args.take i ++ rest.map quoteArg ++ args.drop (i + rest.length) := by
  induction rest with
  | nil =>
    intro i args _
    simp [stringLoop]
  | cons a rest ih =>
    intro i args h
    simp only [List.length_cons] at h
    have hi : i < args.length := by omega
    rw [stringLoop, ih (i + 1) (args.set i (quoteArg a)) (by simp; omega)]
    have h1 : (args.set i (quoteArg a)).take (i + 1) = args.take i ++ [quoteArg a] := by
      rw [List.set_eq_take_append_cons_drop, if_pos hi]
      have hlen : (args.take i ++ [quoteArg a]).length = i + 1 := by
        simp [List.length_take, Nat.min_eq_left (Nat.le_of_lt hi)]
      have hsplit : args.take i ++ quoteArg a :: args.drop (i + 1)
          = (args.take i ++ [quoteArg a]) ++ args.drop (i + 1) := by simp
      rw [hsplit, List.take_left' hlen]
    have h2 : (args.set i (quoteArg a)).drop (i + 1 + rest.length)
        = args.drop (i + (rest.length + 1)) := by
      rw [List.drop_set_of_lt _ _ (by omega)]
      congr 1
      omega
    rw [h1, h2]
    simp

theorem joinFold_eq_go (sep : String) (rest : List String) :
    ∀ acc : String, rest.foldl (fun b s => b ++ sep ++ s) acc
      = String.intercalate.go acc sep rest := by
  induction rest with
  | nil => intro acc; rfl
  | cons a rest ih => intro acc; simp only [List.foldl_cons, String.intercalate.go, ih]

theorem Join_eq_intercalate (elems : List String) (sep : String) :
    Join elems sep = sep.intercalate elems := by
  match elems with
  | [] => rfl
  | [a] => rfl
  | a :: b :: rest =>
    simp only [Join, String.intercalate]
    exact joinFold_eq_go sep (b :: rest) a

theorem String_eq (gw : GitWrap) :
    gw.String = gw.Bin ++ " " ++ " ".intercalate (gw.Args.map renderedArg) := by
  have hloop := stringLoop_eq gw.Args 0 (List.replicate gw.Args.length "") (by simp)
  have hq : gw.Args.map quoteArg = gw.Args.map renderedArg :=
    List.map_congr_left fun a _ => quoteArg_eq_renderedArg a
  simp only [GitWrap.String, hloop, Join_eq_intercalate]
  simp [hq]

/-! ## Lemmas on `Contains` and the read buffer -/

theorem isPrefixOf_append_pad (z : Char) (n : Nat) (sub : List Char) (hz : z ∉ sub) :
    ∀ l : List Char, sub.isPrefixOf (l ++ List.replicate n z) = sub.isPrefixOf l := by
  induction sub with
  | nil => intro l; simp
  | cons a s ih =>
    intro l
    have haz : a ≠ z := fun e => hz (e ▸ List.mem_cons_self a s)
    have hs : z ∉ s := fun m => hz (List.mem_cons_of_mem a m)
    cases l with
    | nil =>
      cases n with
      | zero => simp
      | succ k => simp [List.replicate_succ, List.isPrefixOf, haz]
    | cons b l => simp [List.isPrefixOf, ih hs l]

theorem containsChars_pad (z : Char) (sub : List Char) (hne : sub ≠ []) (hz : z ∉ sub) :
    ∀ n : Nat, containsChars sub (List.replicate n z) = false := by
  have hnil : sub.isPrefixOf ([] : List Char) = false := by
    cases sub with
    | nil => exact absurd rfl hne
    | cons a s => rfl
  intro n
  induction n with
  | zero => simpa [containsChars] using hnil
  | succ k ih =>
    have hp := isPrefixOf_append_pad z (k + 1) sub hz []
    simp only [List.nil_append, hnil] at hp
    rw [List.replicate_succ] at hp ⊢
    simp [containsChars, hp, ih]

theorem containsChars_append_pad (z : Char) (n : Nat) (sub : List Char) (hne : sub ≠ [])
    (hz : z ∉ sub) (l : List Char) :
    containsChars sub (l ++ List.replicate n z) = containsChars sub l := by
  induction l with
  | nil =>
    rw [List.nil_append, containsChars_pad z sub hne hz n]
    cases sub with
    | nil => exact absurd rfl hne
    | cons a s => rfl
  | cons c cs ih =>
    have hp := isPrefixOf_append_pad z n sub hz (c :: cs)
    rw [List.cons_append] at hp ⊢
    simp only [containsChars, hp, ih]

theorem Contains_readBuffer (content : String) :
    Contains (readBuffer content) "Microsoft" = Contains (firstRead content) "Microsoft" := by
  unfold Contains readBuffer firstRead
  exact containsChars_append_pad (Char.ofNat 0) _ _ (by decide) (by decide) _

/-! ## Lemmas on `Run` -/

theorem Spawn_debug (pkg pkg2 : Pkg) (os : OS) (gw : GitWrap) (h : pkg2.debug = pkg.debug) :
    gw.Spawn pkg2 os = gw.Spawn pkg os := by
  simp [GitWrap.Spawn, verboseLog, h]

theorem Exec_debug (pkg pkg2 : Pkg) (os : OS) (gw : GitWrap) (h : pkg2.debug = pkg.debug) :
    gw.Exec pkg2 os = gw.Exec pkg os := by
  simp [GitWrap.Exec, verboseLog, h]

theorem isWindows_debug (pkg : Pkg) (os : OS) : (isWindows pkg os).2.1.debug = pkg.debug := by
  unfold isWindows detectWSL
  by_cases hw : os.GOOS = "windows"
  · simp [hw]
  · cases hd : pkg.detectedWSL <;> cases hp : os.procVersion <;> simp [hw, hd, hp]

theorem isWindows_effects (pkg : Pkg) (os : OS) :
    (isWindows pkg os).2.2
      = if os.GOOS = "windows" ∨ pkg.detectedWSL = true then [] else [Effect.readProcVersion] := by
  unfold isWindows detectWSL
  by_cases hw : os.GOOS = "windows"
  · simp [hw]
  · cases hd : pkg.detectedWSL <;> simp [hw, hd]

theorem isWindows_detected (pkg : Pkg) (os : OS) (hw : os.GOOS ≠ "windows") :
    (isWindows pkg os).2.1.detectedWSL = true := by
  unfold isWindows detectWSL
  cases hd : pkg.detectedWSL <;> simp [hw, hd]

theorem isWindows_keeps (pkg : Pkg) (os : OS) (hd : pkg.detectedWSL = true) :
    (isWindows pkg os).2.1 = pkg := by
  unfold isWindows detectWSL
  by_cases hw : os.GOOS = "windows" <;> simp [hw, hd]

theorem isWindows_eq_spawnPlatform (pkg : Pkg) (os : OS) (h : pkg.Reachable) :
    (isWindows pkg os).1 = spawnPlatform pkg os := by
  unfold isWindows detectWSL spawnPlatform memoizedContents
  by_cases hw : os.GOOS = "windows"
  · simp [hw]
  · cases hd : pkg.detectedWSL with
    | true => simp [hw, hd]
    | false =>
      cases hp : os.procVersion with
      | none => simp [hw, hd, hp, h hd]
      | some content => simp [hw, hd, hp, Contains_readBuffer]

theorem isWindows_memo (pkg : Pkg) (os : OS) (h : pkg.Reachable) (hw : os.GOOS ≠ "windows") :
    Contains (isWindows pkg os).2.1.detectedWSLContents "Microsoft" = spawnPlatform pkg os := by
  unfold isWindows detectWSL spawnPlatform memoizedContents
  cases hd : pkg.detectedWSL with
  | true => simp [hw, hd]
  | false =>
    cases hp : os.procVersion with
    | none => simp [hw, hd, hp, h hd]
    | some content => simp [hw, hd, hp, Contains_readBuffer]

theorem CmdRun_no_probe (os : OS) (c : Cmd) :
    (c.Run os).1.count Effect.readProcVersion = 0 := by
  unfold Cmd.Run
  by_cases hp : c.Path = ""
  · cases he : c.Err <;> simp [hp, he]
  · cases he : c.Err <;> simp [hp, he]

theorem Spawn_no_probe (pkg : Pkg) (os : OS) (gw : GitWrap) :
    (gw.Spawn pkg os).1.count Effect.readProcVersion = 0 := by
  unfold GitWrap.Spawn verboseLog
  cases pkg.debug <;> simp [CmdRun_no_probe]

theorem Exec_no_probe (pkg : Pkg) (os : OS) (gw : GitWrap) :
    (gw.Exec pkg os).1.count Effect.readProcVersion = 0 := by
  unfold GitWrap.Exec verboseLog
  cases pkg.debug <;> cases os.LookPath gw.Bin <;> simp

theorem Run_effects (pkg : Pkg) (os : OS) (gw : GitWrap) :
    (gw.Run pkg os).2.1.count Effect.readProcVersion
      = if os.GOOS = "windows" ∨ pkg.detectedWSL = true then 0 else 1 := by
  unfold GitWrap.Run
  simp only [List.count_append, isWindows_effects]
  have hrest : (if (isWindows pkg os).1 = true then gw.Spawn (isWindows pkg os).2.1 os
      else gw.Exec (isWindows pkg os).2.1 os).1.count Effect.readProcVersion = 0 := by
    split
    · exact Spawn_no_probe _ _ _
    · exact Exec_no_probe _ _ _
  rw [hrest]
  split <;> simp

theorem runAll_detected (calls : List (OS × GitWrap)) :
    ∀ pkg : Pkg, pkg.detectedWSL = true →
      (runAll pkg calls).count Effect.readProcVersion = 0 := by
  induction calls with
  | nil => intro pkg _; rfl
  | cons call rest ih =>
    intro pkg hd
    have hk : (call.2.Run pkg call.1).1 = pkg := isWindows_keeps pkg call.1 hd
    simp only [runAll, List.count_append, Run_effects, hd, or_true, if_true, Nat.zero_add]
    rw [hk]
    exact ih pkg hd

theorem runAll_probe_le_one (calls : List (OS × GitWrap)) :
    ∀ pkg : Pkg, (runAll pkg calls).count Effect.readProcVersion ≤ 1 := by
  induction calls with
  | nil => intro pkg; simp [runAll]
  | cons call rest ih =>
    intro pkg
    simp only [runAll, List.count_append, Run_effects]
    by_cases hw : call.1.GOOS = "windows"
    · simpa [hw] using ih _
    · cases hd : pkg.detectedWSL with
      | true =>
        have h0 := runAll_detected rest (call.2.Run pkg call.1).1
          (isWindows_detected pkg call.1 hw)
        simp [hw, h0]
      | false =>
        have h0 := runAll_detected rest (call.2.Run pkg call.1).1
          (isWindows_detected pkg call.1 hw)
        simp [hw, h0]

/-! ## Lemmas on `GitDir` and `IsGitRepo` -/

theorem GitDir_cached (pkg : Pkg) (gw : GitWrap) (h : gw.gitDir ≠ "") :
    gw.GitDir pkg = (gw.gitDir, gw) := by
  simp [GitWrap.GitDir, h]

theorem GitDir_snd_gitDir (pkg : Pkg) (gw : GitWrap) :
    (gw.GitDir pkg).2.gitDir = (gw.GitDir pkg).1 := by
  unfold GitWrap.GitDir
  by_cases h : gw.gitDir = ""
  · by_cases hw : gw.WorkDir = "" <;> simp [h, hw]
  · simp [h]

theorem append_ne_empty (a b : String) (hb : b ≠ "") : a ++ b ≠ "" := by
  intro h
  have hd := congrArg String.data h
  simp only [String.data_append, List.append_eq_nil] at hd
  exact hb (String.ext hd.2)

theorem GitDir_fst_ne_empty (pkg : Pkg) (gw : GitWrap)
    (h : gw.gitDir ≠ "" ∨ gw.WorkDir ≠ "" ∨ pkg.GitDir ≠ "") : (gw.GitDir pkg).1 ≠ "" := by
  unfold GitWrap.GitDir
  by_cases hg : gw.gitDir = ""
  · by_cases hw : gw.WorkDir = ""
    · have hp : pkg.GitDir ≠ "" := by
        rcases h with h | h | h
        · exact absurd hg h
        · exact absurd hw h
        · exact h
      simpa [hg, hw] using hp
    · simpa [hg, hw] using append_ne_empty gw.WorkDir "/.git" (by decide)
  · simp [hg]

/-- The empty string marks "not computed": with an empty metadata-directory name and no
working directory, `GitDir()` returns the empty string and caches nothing, so that a call
after `WithWorkDir("/w")` computes `/w/.git`. -/
theorem GitDir_empty_name (pkg : Pkg) (h : pkg.GitDir = "") :
    ((New pkg []).GitDir pkg).1 = ""
    ∧ ((((New pkg []).GitDir pkg).2.WithWorkDir "/w").GitDir pkg).1 = "/w/.git" := by
  simp [GitWrap.GitDir, New, GitWrap.WithWorkDir, h]

/-- With a working directory set, `IsGitRepo` is the check the specification describes. -/
theorem IsGitRepo_of_WorkDir (pkg : Pkg) (fs : FileSys) (gw : GitWrap) (h : gw.WorkDir ≠ "") :
    gw.IsGitRepo pkg fs = isRepoAsSpecified pkg fs gw := by
  have hne : gw.WorkDir ++ "/" ++ pkg.GitDir ≠ "" := by
    rw [String.append_assoc]
    intro e
    have hd := congrArg String.data e
    simp only [String.data_append, List.append_eq_nil] at hd
    exact h (String.ext hd.1)
  unfold GitWrap.IsGitRepo IsDir isRepoAsSpecified workingDirectory FileSys.resolve
  rw [if_neg hne, if_neg h]
  cases hd : gw.WorkDir.data with
  | nil => exact absurd (String.ext hd) h
  | cons c cs =>
    have hd2 : (gw.WorkDir ++ "/" ++ pkg.GitDir).data
        = c :: (cs ++ ("/" : String).data ++ pkg.GitDir.data) := by
      simp [String.data_append, hd]
    rw [hd2]
    by_cases hc : c = Char.ofNat 47
    · simp [hc]
    · simp [hc, String.append_assoc]

/-! ## Lemmas on `append` -/

theorem elems_length (m : Mem) (s : Slice) (h : s.InBounds m) : (m.elems s).length = s.len := by
  have h1 := h.1
  have h2 := h.2
  simp only [Mem.elems, List.length_take, List.length_drop]
  omega

theorem append_elems (m : Mem) (s : Slice) (xs : List String) (h : s.InBounds m) :
    (append m s xs).1.elems (append m s xs).2 = m.elems s ++ xs := by
  have h1 := h.1
  have h2 := h.2
  unfold append
  by_cases hfit : s.len + xs.length ≤ s.cap
  · simp only [hfit, if_true, Mem.elems]
    have hT : ((m.arrays s.arr).take (s.off + s.len)).length = s.off + s.len := by
      rw [List.length_take]
      omega
    have hd : ((m.arrays s.arr).take (s.off + s.len)).drop s.off
        = ((m.arrays s.arr).drop s.off).take s.len := by
      rw [List.drop_take]
      congr 1
      omega
    have hlen : (((m.arrays s.arr).drop s.off).take s.len ++ xs).length
        = s.len + xs.length := by
      rw [List.length_append, List.length_take, List.length_drop]
      omega
    rw [List.append_assoc, List.drop_append_of_le_length (by omega), hd, ← List.append_assoc,
      List.take_left' hlen]
  · have hlen : (m.elems s ++ xs).length = s.len + xs.length := by
      rw [List.length_append, elems_length m s h]
    simp only [hfit, if_false, Mem.elems, if_true, List.drop_zero]
    exact List.take_left' hlen

theorem append_inBounds (m : Mem) (s : Slice) (xs : List String) (h : s.InBounds m) :
    (append m s xs).2.InBounds (append m s xs).1 := by
  have h1 := h.1
  have h2 := h.2
  unfold append
  by_cases hfit : s.len + xs.length ≤ s.cap
  · rw [if_pos hfit]
    refine ⟨hfit, ?_⟩
    show s.off + s.cap ≤ (if s.arr = s.arr then _ else _ : List String).length
    rw [if_pos rfl]
    simp only [List.length_append, List.length_take, List.length_drop]
    omega
  · simp only [hfit, if_false, Slice.InBounds, if_true]
    refine ⟨by omega, ?_⟩
    rw [List.length_append, List.length_append, List.length_replicate, elems_length m s h]
    omega

theorem appendArgs_command (m : Mem) (gw : Ptr) (xs : List String)
    (h : (m.cmds gw).Args.InBounds m) :
    (appendArgs m gw xs).1.command gw
      = { (m.command gw) with Args := (m.command gw).Args ++ xs } := by
  have he := append_elems m (m.cmds gw).Args xs h
  simp only [appendArgs, Mem.command, if_true]
  rw [GitWrap.mk.injEq]
  refine ⟨rfl, ?_, rfl, rfl, rfl, rfl, rfl⟩
  exact he

theorem appendArgs_inBounds (m : Mem) (gw : Ptr) (xs : List String)
    (h : (m.cmds gw).Args.InBounds m) :
    ((appendArgs m gw xs).1.cmds gw).Args.InBounds (appendArgs m gw xs).1 := by
  have hb := append_inBounds m (m.cmds gw).Args xs h
  simp only [appendArgs, if_true]
  exact hb

/-- The spare capacity is shared: after `WithArg("x")` on the first of two commands
whose `Args` are the same slice, `WithArg("y")` on the second overwrites the argument
the first one got. -/
theorem WithArg_shared_capacity :
    ((WithArgAt sharedMem 0 ["x"]).1.command 0).Args = ["log", "x"]
    ∧ ((WithArgAt (WithArgAt sharedMem 0 ["x"]).1 1 ["y"]).1.command 1).Args = ["log", "y"]
    ∧ ((WithArgAt (WithArgAt sharedMem 0 ["x"]).1 1 ["y"]).1.command 0).Args
        = ["log", "y"] := by
  decide

/-! ## The claims -/

/-- C1: `String()` is `Bin`, one space, and the arguments joined by single spaces in
their order, each argument in single quotes when it contains a double quote, otherwise in
double quotes when it is empty or contains a single quote or a space, otherwise as it is.
An appended argument with both kinds of quote is put in single quotes, and
`New("commit", "-m", "fix: bug")` renders with the last argument in double quotes. -/
theorem C1_String_rendering (gw : GitWrap) :
    gw.String = gw.Bin ++ " " ++ " ".intercalate (gw.Args.map renderedArg)
    ∧ ((New Pkg.init ["log"]).WithArg ["it\x27s \x22quoted\x22"]).String
        = "git log \x27it\x27s \x22quoted\x22\x27"
    ∧ (New Pkg.init ["commit", "-m", "fix: bug"]).String = "git commit -m \x22fix: bug\x22" :=
  ⟨String_eq gw, by decide, by decide⟩

/-- C2: with the package variable `GitDir` set to `.repo` and nothing cached, `GitDir()`
on a command with working directory `/w` returns `/w/.git`, not `/w/.repo`; with no
working directory it returns the variable, `.repo`. -/
theorem C2_GitDir_fixed_suffix :
    (((New { Pkg.init with GitDir := ".repo" } []).WithWorkDir "/w").GitDir
        { Pkg.init with GitDir := ".repo" }).1 = "/w/.git"
    ∧ "/w/.git" ≠ "/w" ++ "/" ++ ".repo"
    ∧ ((New { Pkg.init with GitDir := ".repo" } []).GitDir
        { Pkg.init with GitDir := ".repo" }).1 = ".repo" := by
  decide

/-- C3: with a non-empty metadata-directory name (the default is `.git`), two calls of
`GitDir()` in a row return the same string; and when `WorkDir` is changed between the
calls to any value, through `WithWorkDir` or by assignment, the second call returns the
string of the first, computed from `WorkDir` as it was then, and leaves the command as
it is. -/
theorem C3_GitDir_memoized (pkg : Pkg) (gw : GitWrap) (dir : String) (h : pkg.GitDir ≠ "") :
    ((gw.GitDir pkg).2.GitDir pkg).1 = (gw.GitDir pkg).1
    ∧ ((gw.GitDir pkg).2.WithWorkDir dir).GitDir pkg
        = ((gw.GitDir pkg).1, (gw.GitDir pkg).2.WithWorkDir dir)
    ∧ ({ (gw.GitDir pkg).2 with WorkDir := dir }.GitDir pkg).1 = (gw.GitDir pkg).1
    ∧ (gw.GitDir pkg).1
        = (if gw.gitDir ≠ "" then gw.gitDir
            else if gw.WorkDir ≠ "" then gw.WorkDir ++ "/.git" else pkg.GitDir) := by
  have hne : (gw.GitDir pkg).1 ≠ "" := GitDir_fst_ne_empty pkg gw (Or.inr (Or.inr h))
  have hc : (gw.GitDir pkg).2.gitDir ≠ "" := by
    rw [GitDir_snd_gitDir]
    exact hne
  have hw : ((gw.GitDir pkg).2.WithWorkDir dir).gitDir ≠ "" := hc
  refine ⟨?_, ?_, ?_, ?_⟩
  · rw [GitDir_cached pkg _ hc, GitDir_snd_gitDir]
  · rw [GitDir_cached pkg _ hw]
    exact congrArg (fun x => (x, (gw.GitDir pkg).2.WithWorkDir dir)) (GitDir_snd_gitDir pkg gw)
  · show (((gw.GitDir pkg).2.WithWorkDir dir).GitDir pkg).1 = _
    rw [GitDir_cached pkg _ hw]
    exact GitDir_snd_gitDir pkg gw
  · unfold GitWrap.GitDir
    by_cases hg : gw.gitDir = ""
    · by_cases hd : gw.WorkDir = "" <;> simp [hg, hd]
    · simp [hg]

/-- C3 at `git status` in `/repo` with the working directory then set to `/other`. -/
theorem C3_GitDir_memoized_witness :
    Pkg.init.GitDir ≠ ""
    ∧ ((((New Pkg.init ["status"]).WithWorkDir "/repo").GitDir Pkg.init).2.WithWorkDir
        "/other").GitDir Pkg.init
      = ("/repo/.git",
          { (New Pkg.init ["status"]) with WorkDir := "/other", gitDir := "/repo/.git" }) := by
  refine ⟨by decide, ?_⟩
  have h := (C3_GitDir_memoized Pkg.init ((New Pkg.init ["status"]).WithWorkDir "/repo")
    "/other" (by decide)).2.1
  rw [h]
  decide

/-- C4: on a command with no working directory, in a process whose current directory
holds a `.git` directory, `IsGitRepo()` asks for `/.git` at the root of the file system
and returns false, where the specification (the current directory stands for the empty
`WorkDir`) gives true. -/
theorem C4_IsGitRepo_empty_WorkDir :
    (New Pkg.init ["status"]).IsGitRepo Pkg.init repoInCwd = false
    ∧ isRepoAsSpecified Pkg.init repoInCwd (New Pkg.init ["status"]) = true
    ∧ repoInCwd.resolve ((New Pkg.init ["status"]).WorkDir ++ "/" ++ Pkg.init.GitDir) = "/.git" := by
  decide

/-- C5, as stated, fails: for `git status` with working directory `/repo` the child that
`Spawn()` starts has no directory set. -/
theorem C5_counterexample :
    (((New Pkg.init ["status"]).WithWorkDir "/repo").spawnCmd linuxHost).Dir = ""
    ∧ (((New Pkg.init ["status"]).WithWorkDir "/repo").spawnCmd linuxHost).Dir
        ≠ ((New Pkg.init ["status"]).WithWorkDir "/repo").WorkDir
    ∧ (((New Pkg.init ["status"]).WithWorkDir "/repo").Spawn Pkg.init linuxHost).1
        = [Effect.start
            { Path := "/usr/bin/git", Args := ["git", "status"], Dir := "",
              Stdin := osStdin, Stdout := osStdout, Stderr := osStderr, Err := none }] := by
  decide

/-- C5, amended: `Spawn()`, after the optional trace line, starts no child and returns
the lookup error when `Bin` is a bare name that the search path does not resolve, and
the error `exec: no command` when there is no program; otherwise it starts one child,
whose program is `Bin` (resolved through the search path when `Bin` is a bare name),
whose argument vector is `Bin` followed by `Args`, whose streams are the command's
`Stdin`, `Stdout` and `Stderr` and whose directory is not set, and returns exactly what
running and waiting for that child returns; `WorkDir` has no influence on any of it. -/
theorem C5_Spawn_child (pkg : Pkg) (os : OS) (gw : GitWrap) :
    gw.Spawn pkg os
      = (if os.Base gw.Bin = gw.Bin ∧ os.LookPath gw.Bin = none then
          (verboseLog pkg gw, Ret.returned (some (os.LookPathErr gw.Bin)))
        else if resolvedBin os gw.Bin = "" then
          (verboseLog pkg gw, Ret.returned (some (GoError.text "exec: no command")))
        else
          (verboseLog pkg gw ++
            [Effect.start
              { Path := resolvedBin os gw.Bin, Args := gw.Bin :: gw.Args, Dir := "",
                Stdin := gw.Stdin, Stdout := gw.Stdout, Stderr := gw.Stderr, Err := none }],
           Ret.returned
            (os.Run
              { Path := resolvedBin os gw.Bin, Args := gw.Bin :: gw.Args, Dir := "",
                Stdin := gw.Stdin, Stdout := gw.Stdout, Stderr := gw.Stderr,
                Err := none })))
    ∧ ∀ dir : String, (gw.WithWorkDir dir).Spawn pkg os = gw.Spawn pkg os := by
  constructor
  · unfold GitWrap.Spawn GitWrap.spawnCmd Command Cmd.Run resolvedBin
    by_cases hb : os.Base gw.Bin = gw.Bin
    · cases hl : os.LookPath gw.Bin with
      | none => simp [hb, hl]
      | some lp =>
        by_cases hp : lp = ""
        · simp [hb, hl, hp]
        · simp [hb, hl, hp]
    · by_cases hp : gw.Bin = ""
      · have hb2 : ¬ os.Base "" = "" := hp ▸ hb
        simp [hp, hb2]
      · simp [hb, hp]
  · intro dir
    rfl

/-- C6: from package variables a process can reach, `Run()` ends as `Spawn()` does and
has its effects when the OS is Windows or the memoized first-read contents of
`/proc/version` contain `Microsoft`, and as `Exec()` otherwise, after at most one
inspection of `/proc/version`; the variables stay reachable, a later call on the same OS
takes the same branch whatever `/proc/version` then holds, and any sequence of calls
inspects `/proc/version` at most once. -/
theorem C6_Run_dispatch (pkg : Pkg) (os : OS) (gw : GitWrap) (h : pkg.Reachable) :
    (gw.Run pkg os).2.2
        = (if spawnPlatform pkg os then gw.Spawn pkg os else gw.Exec pkg os).2
    ∧ (gw.Run pkg os).2.1
        = (if os.GOOS = "windows" ∨ pkg.detectedWSL = true then []
            else [Effect.readProcVersion])
          ++ (if spawnPlatform pkg os then gw.Spawn pkg os else gw.Exec pkg os).1
    ∧ (gw.Run pkg os).1.Reachable
    ∧ (∀ os2 : OS, os2.GOOS = os.GOOS →
        spawnPlatform (gw.Run pkg os).1 os2 = spawnPlatform pkg os)
    ∧ (∀ calls : List (OS × GitWrap),
        (runAll pkg calls).count Effect.readProcVersion ≤ 1) := by
  have hsel : (if (isWindows pkg os).1 = true then gw.Spawn (isWindows pkg os).2.1 os
        else gw.Exec (isWindows pkg os).2.1 os)
      = (if spawnPlatform pkg os then gw.Spawn pkg os else gw.Exec pkg os) := by
    rw [isWindows_eq_spawnPlatform pkg os h]
    split
    · exact Spawn_debug pkg _ os gw (isWindows_debug pkg os)
    · exact Exec_debug pkg _ os gw (isWindows_debug pkg os)
  refine ⟨?_, ?_, ?_, ?_, fun calls => runAll_probe_le_one calls pkg⟩
  · show (if (isWindows pkg os).1 = true then gw.Spawn (isWindows pkg os).2.1 os
        else gw.Exec (isWindows pkg os).2.1 os).2 = _
    rw [hsel]
  · show (isWindows pkg os).2.2 ++ _ = _
    rw [isWindows_effects, hsel]
  · show (isWindows pkg os).2.1.Reachable
    by_cases hw : os.GOOS = "windows"
    · simpa [isWindows, hw] using h
    · intro hd
      rw [isWindows_detected pkg os hw] at hd
      exact absurd hd (by decide)
  · intro os2 hos
    show spawnPlatform (isWindows pkg os).2.1 os2 = _
    by_cases hw : os.GOOS = "windows"
    · simp [spawnPlatform, hos, hw]
    · have hm := isWindows_memo pkg os h hw
      have hd := isWindows_detected pkg os hw
      rw [← hm]
      simp [spawnPlatform, memoizedContents, hos, hw, hd]

/-- C6 at a fresh process: under the Windows Subsystem for Linux `git status` is
spawned, on a plain Linux host the process image is replaced. -/
theorem C6_Run_dispatch_witness :
    Pkg.init.Reachable
    ∧ ((New Pkg.init ["status"]).Run Pkg.init wslHost).2.2
        = ((New Pkg.init ["status"]).Spawn Pkg.init wslHost).2
    ∧ ((New Pkg.init ["status"]).Run Pkg.init linuxHost).2.2
        = ((New Pkg.init ["status"]).Exec Pkg.init linuxHost).2 := by
  refine ⟨by decide, ?_, ?_⟩
  · have h := (C6_Run_dispatch Pkg.init wslHost (New Pkg.init ["status"]) (by decide)).1
    rw [if_pos (by decide)] at h
    exact h
  · have h := (C6_Run_dispatch Pkg.init linuxHost (New Pkg.init ["status"]) (by decide)).1
    rw [if_neg (by decide)] at h
    exact h

/-- C7: when the search-path lookup of `Bin` fails, `Exec()` returns the `exec.Error`
with name `Bin` and message `command not found` and no replacement of the process image
is attempted; when it gives `binary`, the one replacement attempted is of `binary` with
argument vector `binary` followed by `Args` and the current environment, and `Exec`
returns its error or does not return. -/
theorem C7_Exec_lookup (pkg : Pkg) (os : OS) (gw : GitWrap) :
    (os.LookPath gw.Bin = none →
        (gw.Exec pkg os).2
            = Ret.returned (some (GoError.execError gw.Bin "command not found"))
        ∧ ∀ (b : String) (argv env : List String),
            Effect.exec b argv env ∉ (gw.Exec pkg os).1)
    ∧ (∀ binary : String, os.LookPath gw.Bin = some binary →
        (gw.Exec pkg os).1
            = verboseLog pkg gw
              ++ [Effect.lookPath gw.Bin,
                  Effect.exec binary (binary :: gw.Args) os.Environ]
        ∧ (gw.Exec pkg os).2
            = match os.Exec binary (binary :: gw.Args) os.Environ with
              | none => Ret.replaced
              | some e => Ret.returned (some e)) := by
  constructor
  · intro hl
    constructor
    · simp [GitWrap.Exec, hl]
    · intro b argv env
      unfold GitWrap.Exec verboseLog
      cases pkg.debug <;> simp [hl]
  · intro binary hl
    constructor
    · simp [GitWrap.Exec, hl]
    · simp only [GitWrap.Exec, hl, List.singleton_append]

/-- C7 on the Linux host: `hub` is not on the search path, `git` is at `/usr/bin/git`. -/
theorem C7_Exec_lookup_witness :
    (linuxHost.LookPath ({ (New Pkg.init ["status"]) with Bin := "hub" }).Bin = none
      ∧ ({ (New Pkg.init ["status"]) with Bin := "hub" }.Exec Pkg.init linuxHost).2
          = Ret.returned (some (GoError.execError "hub" "command not found")))
    ∧ (linuxHost.LookPath (New Pkg.init ["status", "--short"]).Bin = some "/usr/bin/git"
      ∧ ((New Pkg.init ["status", "--short"]).Exec Pkg.init linuxHost).1
          = [Effect.lookPath "git",
              Effect.exec "/usr/bin/git" ["/usr/bin/git", "status", "--short"]
                ["PATH=/usr/bin"]]) :=
  ⟨⟨by decide,
      ((C7_Exec_lookup Pkg.init linuxHost { (New Pkg.init ["status"]) with Bin := "hub" }).1
        (by decide)).1⟩,
    ⟨by decide,
      ((C7_Exec_lookup Pkg.init linuxHost (New Pkg.init ["status", "--short"])).2
        "/usr/bin/git" (by decide)).1⟩⟩

/-- C8: `WithOutput(out, errOut)` returns its receiver; in the receiver `Stdout` is
`out`, `Stderr` is unchanged when `errOut` is nil and `errOut` otherwise, and `Bin`,
`Args`, `WorkDir`, `Stdin` and the cached path are unchanged; no other command
changes. -/
theorem C8_WithOutput (h : Heap) (gw : Ptr) (out errOut : File) :
    (WithOutputAt h gw out errOut).2 = gw
    ∧ ((WithOutputAt h gw out errOut).1 gw).Stdout = out
    ∧ ((WithOutputAt h gw out errOut).1 gw).Stderr
        = (if errOut = none then (h gw).Stderr else errOut)
    ∧ ((WithOutputAt h gw out errOut).1 gw).Bin = (h gw).Bin
    ∧ ((WithOutputAt h gw out errOut).1 gw).Args = (h gw).Args
    ∧ ((WithOutputAt h gw out errOut).1 gw).WorkDir = (h gw).WorkDir
    ∧ ((WithOutputAt h gw out errOut).1 gw).Stdin = (h gw).Stdin
    ∧ ((WithOutputAt h gw out errOut).1 gw).gitDir = (h gw).gitDir
    ∧ ∀ q : Ptr, q = gw ∨ (WithOutputAt h gw out errOut).1 q = h q := by
  have hcell : (WithOutputAt h gw out errOut).1 gw = (h gw).WithOutput out errOut := by
    simp [WithOutputAt, chained, Heap.store]
  rw [hcell]
  refine ⟨rfl, ?_, ?_, ?_, ?_, ?_, ?_, ?_, ?_⟩
  · cases errOut <;> simp [GitWrap.WithOutput]
  · cases errOut <;> simp [GitWrap.WithOutput]
  · cases errOut <;> simp [GitWrap.WithOutput]
  · cases errOut <;> simp [GitWrap.WithOutput]
  · cases errOut <;> simp [GitWrap.WithOutput]
  · cases errOut <;> simp [GitWrap.WithOutput]
  · cases errOut <;> simp [GitWrap.WithOutput]
  · intro q
    by_cases hq : q = gw
    · exact Or.inl hq
    · exact Or.inr (by simp [WithOutputAt, chained, Heap.store, hq])

/-- C9: on a command whose `Args` slice is within its backing array, `WithArg(xs...)`
and `WithArgs(xs)` leave the same memory and return the same pointer, the receiver; the
receiver's `Args` are the previous `Args` followed by `xs`, so the previous arguments are
a prefix, and every other field of it is unchanged; its `Args` slice is again within its
backing array; and `SubCmd(c)` is `WithArg(c)`. -/
theorem C9_WithArg_WithArgs (m : Mem) (gw : Ptr) (xs : List String) (c : String)
    (h : (m.cmds gw).Args.InBounds m) :
    WithArgAt m gw xs = WithArgsAt m gw xs
    ∧ (WithArgAt m gw xs).2 = gw
    ∧ (WithArgAt m gw xs).1.command gw
        = { (m.command gw) with Args := (m.command gw).Args ++ xs }
    ∧ (m.command gw).Args <+: ((WithArgAt m gw xs).1.command gw).Args
    ∧ ((WithArgAt m gw xs).1.cmds gw).Args.InBounds (WithArgAt m gw xs).1
    ∧ SubCmdAt m gw c = WithArgAt m gw [c] := by
  have hcmd := appendArgs_command m gw xs h
  refine ⟨rfl, rfl, hcmd, ?_, appendArgs_inBounds m gw xs h, rfl⟩
  show _ <+: ((appendArgs m gw xs).1.command gw).Args
  rw [hcmd]
  exact List.prefix_append _ _

/-- C9 on two commands that share a backing array: `WithArg("x")` on the first. -/
theorem C9_WithArg_WithArgs_witness :
    (sharedMem.cmds 0).Args.InBounds sharedMem
    ∧ ((WithArgAt sharedMem 0 ["x"]).1.command 0).Args = ["log", "x"]
    ∧ SubCmdAt sharedMem 0 "x" = WithArgAt sharedMem 0 ["x"] := by
  have h := C9_WithArg_WithArgs sharedMem 0 ["x"] "x" (by decide)
  refine ⟨by decide, ?_, h.2.2.2.2.2⟩
  rw [h.2.2.1]
  decide

/-- C10: whatever the package variables, the file system and the command,
`CurrentBranch()` returns the empty string and leaves the command as it is. -/
theorem C10_CurrentBranch (pkg : Pkg) (fs : FileSys) (gw : GitWrap) :
    (gw.CurrentBranch pkg fs).1 = "" ∧ (gw.CurrentBranch pkg fs).2 = gw :=
  ⟨rfl, rfl⟩

end gitwrap
